import Mathlib

/-!
Verification of the lot-based cost-basis accounting engine of the
honest-portfolio repository: a shallow embedding of the FIFO matching engine
(`app/services/sale_service.py`), the reinvestment linker, the preview
operation, and the valuation aggregation in `app/routes/portfolio.py` and
`app/routes/purchases.py`, together with theorems settling the stated
properties of the engine.

Share and currency quantities are embedded as exact rationals (`ℚ`); the
source's floating-point epsilon `TOLERANCE = 0.0001` is kept as the rational
`tol = 1/10000`.  Dates are embedded as year/month/day triples compared
through an injective key, which mirrors the total order on calendar dates.
The web framework, the SQLAlchemy session and the yfinance price oracle are
out of scope (per the specification): persistent state is an explicit `DB`
value threaded through the operations, and the oracle is a function argument
returning `Option ℚ`.
-/

deriving instance DecidableEq for Except

namespace HonestPortfolio

/-- Floating-point comparison tolerance used throughout `sale_service.py`
(`TOLERANCE = 0.0001`). -/
def tol : ℚ := 1 / 10000

/-- Calendar date (year, month, day), embedding Python `datetime.date`. -/
structure PDate where
  y : Nat
  m : Nat
  d : Nat
deriving DecidableEq

/-- Injective key realising the calendar order on dates (months run 1..12 and
days 1..31, both below 32, so the packing is order-preserving). -/
def PDate.key (dt : PDate) : Nat :=
  dt.y * 1024 + dt.m * 32 + dt.d

/-- Embedding of the `Purchase` model (`app/models.py`): one purchase lot.
The display-only `original_amount`/`original_currency` annotation and the
`created_at` timestamp play no role in the accounting engine and are
omitted. -/
structure Purchase where
  id : Nat
  user_id : Nat
  ticker : String
  purchase_date : PDate
  amount : ℚ
  shares_bought : ℚ
  price_at_purchase : ℚ
deriving DecidableEq

/-- Embedding of the `Sale` model (`app/models.py`), including the nullable
reinvestment linkage columns. -/
structure Sale where
  id : Nat
  user_id : Nat
  ticker : String
  sale_date : PDate
  shares_sold : ℚ
  price_at_sale : ℚ
  total_proceeds : ℚ
  reinvestment_purchase_id : Option Nat
  reinvested_amount : Option ℚ
  cash_retained : Option ℚ
deriving DecidableEq

/-- Embedding of the `PurchaseSaleAssignment` model (`app/models.py`).  The
surrogate primary key is omitted: no computation in the engine reads it. -/
structure PurchaseSaleAssignment where
  purchase_id : Nat
  sale_id : Nat
  shares_assigned : ℚ
  cost_basis : ℚ
  proceeds : ℚ
  realized_gain_loss : ℚ
deriving DecidableEq

/-- The persistent store: the rows of the three accounting tables plus the
autoincrement counter for sale primary keys. -/
structure DB where
  purchases : List Purchase
  sales : List Sale
  assignments : List PurchaseSaleAssignment
  next_sale_id : Nat
deriving DecidableEq

/-- `Purchase.shares_sold` (`app/models.py`): sum of `shares_assigned` over
the assignments referencing this purchase. -/
def shares_sold_of (db : DB) (p : Purchase) : ℚ :=
  ((db.assignments.filter (fun a => a.purchase_id == p.id)).map
    (fun a => a.shares_assigned)).sum

/-- `Purchase.shares_remaining` (`app/models.py`): shares bought minus shares
sold. -/
def shares_remaining (db : DB) (p : Purchase) : ℚ :=
  p.shares_bought - shares_sold_of db p

/-- Insert a purchase into a list sorted by ascending `purchase_date`,
keeping it before strictly later dates (stable for equal dates). -/
def insertByDate (p : Purchase) : List Purchase → List Purchase
  | [] => [p]
  | q :: qs =>
    if p.purchase_date.key ≤ q.purchase_date.key then p :: q :: qs
    else q :: insertByDate p qs

/-- Stable sort by ascending `purchase_date`, embedding
`ORDER BY purchase_date ASC`. -/
def sortByDate (l : List Purchase) : List Purchase :=
  l.foldr insertByDate []

/-- The query `Purchase.query.filter_by(user_id=…, ticker=…).order_by(
Purchase.purchase_date.asc()).all()` used by the FIFO engine. -/
def purchasesFor (db : DB) (user_id : Nat) (ticker : String) : List Purchase :=
  sortByDate (db.purchases.filter
    (fun p => p.user_id == user_id && p.ticker == ticker))

/-- `total_available = sum(p.shares_remaining for p in purchases)`. -/
def total_available (db : DB) (user_id : Nat) (ticker : String) : ℚ :=
  ((purchasesFor db user_id ticker).map (shares_remaining db)).sum

/-- The distinct failure exits of `create_sale_with_fifo` and
`preview_fifo_assignment`.  Each constructor records the data interpolated
into the corresponding Python exception message. -/
inductive SaleError where
  | sharesNotPositive
  | priceNotPositive
  | noPurchasesFound (ticker : String)
  | insufficientShares (available requested : ℚ)
  | assignmentIncomplete (remaining : ℚ)
deriving DecidableEq

/-- The Python exception classes the engine raises. -/
inductive PyErrorClass where
  | valueError
  | insufficientSharesError
deriving DecidableEq

/-- The Python class of each failure exit.  `InsufficientSharesError` is used
both for the availability check, for the no-purchases case, and for the
final incomplete-assignment guard in `create_sale_with_fifo`. -/
def SaleError.pyClass : SaleError → PyErrorClass
  | .sharesNotPositive => .valueError
  | .priceNotPositive => .valueError
  | .noPurchasesFound _ => .insufficientSharesError
  | .insufficientShares _ _ => .insufficientSharesError
  | .assignmentIncomplete _ => .insufficientSharesError

/-- Whether a failure exit reports both the available and the requested share
quantities (as the availability-check message does). -/
def SaleError.carriesQuantities : SaleError → Bool
  | .insufficientShares _ _ => true
  | _ => false

/-- The FIFO assignment loop of `create_sale_with_fifo` (lines 74-105 of
`sale_service.py`): walk the date-sorted lots, skip lots with at most `tol`
shares remaining, assign `min(remaining_to_sell, shares_remaining)` from each
other lot, and stop once at most `tol` shares remain to sell.  Returns the
assignments created and the final `remaining_to_sell`.  `shares_remaining` is
read against the pre-sale store `db`: the loop visits each lot once and the
assignments it creates reference only already-visited lots. -/
def fifoAssignLoop (db : DB) (sale_id : Nat) (price_at_sale : ℚ) :
    List Purchase → ℚ → List PurchaseSaleAssignment × ℚ
  | [], remaining => ([], remaining)
  | p :: ps, remaining =>
    if remaining ≤ tol then ([], remaining)
    else
      let available := shares_remaining db p
      if available ≤ tol then fifoAssignLoop db sale_id price_at_sale ps remaining
      else
        let shares_to_assign := min remaining available
        let cost_basis := shares_to_assign * p.price_at_purchase
        let proceeds := shares_to_assign * price_at_sale
        let rest := fifoAssignLoop db sale_id price_at_sale ps (remaining - shares_to_assign)
        (⟨p.id, sale_id, shares_to_assign, cost_basis, proceeds,
          proceeds - cost_basis⟩ :: rest.1, rest.2)

/-- `create_sale_with_fifo` (`sale_service.py`).  On success the new store,
the created `Sale` row and its assignment rows are returned; on any failure
the transaction is rolled back, so no new store is produced. -/
def create_sale_with_fifo (db : DB) (user_id : Nat) (ticker : String)
    (sale_date : PDate) (shares_sold : ℚ) (price_at_sale : ℚ) :
    Except SaleError (DB × Sale × List PurchaseSaleAssignment) :=
  if shares_sold ≤ 0 then .error .sharesNotPositive
  else if price_at_sale ≤ 0 then .error .priceNotPositive
  else
    let purchases := purchasesFor db user_id ticker
    if purchases.isEmpty then .error (.noPurchasesFound ticker)
    else
      let total := (purchases.map (shares_remaining db)).sum
      if total < shares_sold - tol then
        .error (.insufficientShares total shares_sold)
      else
        let sale : Sale :=
          ⟨db.next_sale_id, user_id, ticker, sale_date, shares_sold,
            price_at_sale, shares_sold * price_at_sale, none, none, none⟩
        let walk := fifoAssignLoop db sale.id price_at_sale purchases shares_sold
        if walk.2 > tol then .error (.assignmentIncomplete walk.2)
        else
          .ok ({ db with
                  sales := db.sales ++ [sale],
                  assignments := db.assignments ++ walk.1,
                  next_sale_id := db.next_sale_id + 1 },
                sale, walk.1)

/-- Assignments created by a (successful) sale; `[]` on failure, since a
failed call persists nothing. -/
def createdAssignments
    (r : Except SaleError (DB × Sale × List PurchaseSaleAssignment)) :
    List PurchaseSaleAssignment :=
  match r with
  | .ok x => x.2.2
  | .error _ => []

/-- The store resulting from a sale attempt: `none` on failure (rollback). -/
def resultDB (r : Except SaleError (DB × Sale × List PurchaseSaleAssignment)) :
    Option DB :=
  match r with
  | .ok x => some x.1
  | .error _ => none

/-- Whether a sale attempt succeeded. -/
def saleOk (r : Except SaleError (DB × Sale × List PurchaseSaleAssignment)) :
    Bool :=
  match r with
  | .ok _ => true
  | .error _ => false

/-- The HTTP status the `POST /sales` route (`app/routes/sales.py`, lines
71-82) produces for the engine's outcome: 201 on success; both
`except InsufficientSharesError` and `except ValueError` return a plain
`jsonify({'error': str(e)}), 400`. -/
def create_sale_route_status (db : DB) (user_id : Nat) (ticker : String)
    (sale_date : PDate) (shares_sold : ℚ) (price_at_sale : ℚ) : Nat :=
  match create_sale_with_fifo db user_id ticker sale_date shares_sold price_at_sale with
  | .ok _ => 201
  | .error e =>
    match e.pyClass with
    | .insufficientSharesError => 400
    | .valueError => 400

/-- `Sale.query.get(sale_id)`. -/
def findSale (db : DB) (sale_id : Nat) : Option Sale :=
  db.sales.find? (fun s => s.id == sale_id)

/-- `Purchase.query.get(purchase_id)`. -/
def findPurchase (db : DB) (purchase_id : Nat) : Option Purchase :=
  db.purchases.find? (fun p => p.id == purchase_id)

/-- The failure exits of `link_sale_to_reinvestment`; all are Python
`ValueError`s. -/
inductive LinkError where
  | saleNotFound (sale_id : Nat)
  | purchaseNotFound (purchase_id : Nat)
  | amountNotPositive
  | amountExceedsProceeds (amount proceeds : ℚ)
deriving DecidableEq

/-- `link_sale_to_reinvestment` (`sale_service.py`): resolve the sale and the
purchase, validate `0 < reinvested_amount ≤ sale.total_proceeds`, then set
the reinvestment columns on the sale and commit. -/
def link_sale_to_reinvestment (db : DB) (sale_id purchase_id : Nat)
    (reinvested_amount : ℚ) : Except LinkError (DB × Sale) :=
  match findSale db sale_id with
  | none => .error (.saleNotFound sale_id)
  | some sale =>
    match findPurchase db purchase_id with
    | none => .error (.purchaseNotFound purchase_id)
    | some _ =>
      if reinvested_amount ≤ 0 then .error .amountNotPositive
      else if reinvested_amount > sale.total_proceeds then
        .error (.amountExceedsProceeds reinvested_amount sale.total_proceeds)
      else
        let updated : Sale :=
          { sale with
              reinvestment_purchase_id := some purchase_id,
              reinvested_amount := some reinvested_amount,
              cash_retained := some (sale.total_proceeds - reinvested_amount) }
        .ok ({ db with
                sales := db.sales.map (fun s => if s.id == sale_id then updated else s) },
              updated)

/-- The sale returned by a link attempt, `none` on failure. -/
def linkedSale (r : Except LinkError (DB × Sale)) : Option Sale :=
  match r with
  | .ok x => some x.2
  | .error _ => none

/-- One entry of the preview's would-be assignment list (the dict appended in
`preview_fifo_assignment`). -/
structure PreviewAssignment where
  purchase_id : Nat
  purchase_date : PDate
  price_at_purchase : ℚ
  shares_available : ℚ
  shares_to_assign : ℚ
  cost_basis : ℚ
deriving DecidableEq

/-- The dict returned by `preview_fifo_assignment`.  The `shares_remaining_after`
and `error_message` keys are optional: the no-purchases return carries an
error message and no `shares_remaining_after`; the main return carries
`shares_remaining_after` (itself `None` when insufficient) and no error. -/
structure PreviewResult where
  assignments : List PreviewAssignment
  total_cost_basis : ℚ
  total_available : ℚ
  is_sufficient : Bool
  shares_remaining_after : Option ℚ
  error_message : Option String
deriving DecidableEq

/-- The preview walk of `preview_fifo_assignment` (lines 205-235): identical
to the FIFO assignment loop but recording preview entries.  Returns the
entries and the final `remaining_to_sell`. -/
def previewLoop (db : DB) : List Purchase → ℚ → List PreviewAssignment × ℚ
  | [], remaining => ([], remaining)
  | p :: ps, remaining =>
    if remaining ≤ tol then ([], remaining)
    else
      let available := shares_remaining db p
      if available ≤ tol then previewLoop db ps remaining
      else
        let shares_to_assign := min remaining available
        let rest := previewLoop db ps (remaining - shares_to_assign)
        (⟨p.id, p.purchase_date, p.price_at_purchase, available,
          shares_to_assign, shares_to_assign * p.price_at_purchase⟩ :: rest.1,
          rest.2)

/-- `preview_fifo_assignment` (`sale_service.py`): the same walk without
persisting anything.  The running `total_cost_basis` accumulator equals the
sum of the recorded entries' `cost_basis` fields.  Raises `ValueError` for a
non-positive `shares_to_sell`. -/
def preview_fifo_assignment (db : DB) (user_id : Nat) (ticker : String)
    (shares_to_sell : ℚ) : Except SaleError PreviewResult :=
  if shares_to_sell ≤ 0 then .error .sharesNotPositive
  else
    let purchases := purchasesFor db user_id ticker
    if purchases.isEmpty then
      .ok ⟨[], 0, 0, false, none, some ("No purchases found for ticker " ++ ticker)⟩
    else
      let total := (purchases.map (shares_remaining db)).sum
      let is_sufficient := decide (total ≥ shares_to_sell - tol)
      let walk := previewLoop db purchases shares_to_sell
      .ok ⟨walk.1, (walk.1.map (fun a => a.cost_basis)).sum, total, is_sufficient,
            if is_sufficient then some (total - shares_to_sell) else none, none⟩

/-- The preview produced by a preview attempt, `none` when it raised. -/
def previewOf (r : Except SaleError PreviewResult) : Option PreviewResult :=
  match r with
  | .ok x => some x
  | .error _ => none

/-- Round half to even on integers, the mode of Python's built-in `round`. -/
def roundHalfEven (x : ℚ) : ℤ :=
  let n := ⌊x⌋
  let f := x - n
  if f < 1 / 2 then n
  else if f > 1 / 2 then n + 1
  else if n % 2 = 0 then n else n + 1

/-- Python `round(x, prec)` on exact rationals. -/
def pyRound (prec : Nat) (x : ℚ) : ℚ :=
  (roundHalfEven (x * 10 ^ prec) : ℚ) / 10 ^ prec

/-- Python `round(x, 2)`, used for serialised currency values. -/
def round2 (x : ℚ) : ℚ := pyRound 2 x

/-- The external price oracle's `get_price_on_date(ticker, date)`: a closing
price or `None`.  Out of scope per the specification, hence a parameter. -/
def PriceOracle := String → PDate → Option ℚ

/-- The oracle's `get_current_price` / the batched `get_current_prices` dict
lookup: a current price or `None`. -/
def CurrentPrices := String → Option ℚ

/-- The oracle's `get_price_history(ticker, start)` result for one ticker: a
date-keyed price dict, embedded as an association list. -/
def PriceHistory := List (PDate × ℚ)

/-- Dict lookup `history.get(date)`. -/
def histGet (h : PriceHistory) (dt : PDate) : Option ℚ :=
  (h.find? (fun e => e.1 == dt)).map (fun e => e.2)

/-- The benchmark price at a lot's purchase date, shared by the per-purchase
comparison (`purchases.py` lines 154-157 and 216-219), the portfolio summary
(`portfolio.py` lines 202-205) and the history pre-computation
(`portfolio.py` lines 291-298): when the benchmark ticker equals the lot's
own ticker the stored `price_at_purchase` is used and the oracle is not
consulted; otherwise `get_price_on_date(benchmark, purchase_date)`. -/
def comp_price_at_purchase (price_on_date : PriceOracle) (comp_ticker : String)
    (p : Purchase) : Option ℚ :=
  if comp_ticker == p.ticker then some p.price_at_purchase
  else price_on_date comp_ticker p.purchase_date

/-- One benchmark row of `GET /purchases/<id>/comparison`
(`app/routes/purchases.py` lines 141-185), with the rounding applied by the
route. -/
structure ComparisonAlt where
  ticker : String
  price_at_purchase : ℚ
  shares_would_have : ℚ
  current_price : ℚ
  current_value : ℚ
  gain_loss : ℚ
  return_pct : ℚ
  difference_vs_actual : ℚ
deriving DecidableEq

/-- The comparison route's computation of one benchmark alternative for one
purchase.  `none` embeds the skipped cases: missing current price for the
purchase's own ticker (the route answers 500 before any alternative),
missing benchmark price at the purchase date, or missing benchmark current
price (both `continue`). -/
def purchase_comparison_alternative (price_on_date : PriceOracle)
    (current_price_of : CurrentPrices) (p : Purchase) (comp_ticker : String) :
    Option ComparisonAlt :=
  match current_price_of p.ticker with
  | none => none
  | some current_price =>
    let actual_current_value := p.shares_bought * current_price
    match comp_price_at_purchase price_on_date comp_ticker p with
    | none => none
    | some cpp =>
      let shares_would_have := p.amount / cpp
      match current_price_of comp_ticker with
      | none => none
      | some comp_current_price =>
        let alt_current_value := shares_would_have * comp_current_price
        let alt_gain_loss := alt_current_value - p.amount
        let alt_return_pct :=
          if p.amount > 0 then alt_gain_loss / p.amount * 100 else 0
        some ⟨comp_ticker, round2 cpp, pyRound 4 shares_would_have,
              round2 comp_current_price, round2 alt_current_value,
              round2 alt_gain_loss, round2 alt_return_pct,
              round2 (alt_current_value - actual_current_value)⟩

/-- One lot's contribution to a benchmark's alternative current value in the
portfolio summary (`app/routes/portfolio.py` lines 200-211): skipped unless
both the benchmark price at the purchase date and the benchmark current
price are truthy (present and non-zero). -/
def summary_alt_contribution (price_on_date : PriceOracle)
    (current_prices : CurrentPrices) (comp_ticker : String) (p : Purchase) : ℚ :=
  match comp_price_at_purchase price_on_date comp_ticker p,
      current_prices comp_ticker with
  | some cpp, some cc =>
    if cpp ≠ 0 ∧ cc ≠ 0 then p.amount / cpp * cc else 0
  | _, _ => 0

/-- A benchmark's `alt_current_value` in the portfolio summary: the sum of
the per-lot contributions. -/
def summary_alt_current_value (price_on_date : PriceOracle)
    (current_prices : CurrentPrices) (comp_ticker : String)
    (purchases : List Purchase) : ℚ :=
  (purchases.map (summary_alt_contribution price_on_date current_prices comp_ticker)).sum

/-- The history pre-computation `comp_shares_per_purchase`
(`app/routes/portfolio.py` lines 285-302): shares the benchmark would have
bought with the lot's amount, present only when the benchmark price at the
purchase date is truthy. -/
def history_comp_shares (price_on_date : PriceOracle) (comp_ticker : String)
    (p : Purchase) : Option ℚ :=
  match comp_price_at_purchase price_on_date comp_ticker p with
  | some cpp => if cpp ≠ 0 then some (p.amount / cpp) else none
  | none => none

/-- `shares_sold_by_date` (`app/routes/portfolio.py` lines 304-313): shares
of a lot assigned to sales dated on or before the given date. -/
def shares_sold_by (db : DB) (p : Purchase) (dt : PDate) : ℚ :=
  ((db.assignments.filter (fun a =>
      a.purchase_id == p.id &&
      ((findSale db a.sale_id).elim false
        (fun s => s.sale_date.key ≤ dt.key)))).map
    (fun a => a.shares_assigned)).sum

/-- The actual portfolio value on one history date (`app/routes/portfolio.py`
lines 320-331): each lot purchased by that date contributes
`shares_remaining_on_date * price` when its ticker's price for the date is
truthy and shares remain, and is silently skipped otherwise. -/
def actual_value_on_date (db : DB) (histories : String → PriceHistory)
    (purchases : List Purchase) (dt : PDate) : ℚ :=
  (purchases.map (fun p =>
    if p.purchase_date.key ≤ dt.key then
      let rem := p.shares_bought - shares_sold_by db p dt
      match histGet (histories p.ticker) dt with
      | some price => if price ≠ 0 ∧ rem > 0 then rem * price else 0
      | none => 0
    else 0)).sum

/-- The actual series of `GET /portfolio/history`: for every date an entry
`some (round(actual_value, 2))` is appended (`sanitize_float` only turns
float `NaN`/`Infinity` into `None`, which exact rational arithmetic never
produces). -/
def actual_series (db : DB) (histories : String → PriceHistory)
    (purchases : List Purchase) (dates : List PDate) : List (Option ℚ) :=
  dates.map (fun dt => some (round2 (actual_value_on_date db histories purchases dt)))

/-- A benchmark's alternative value on one history date
(`app/routes/portfolio.py` lines 334-346): each lot purchased by that date
with pre-computed benchmark shares contributes `shares * price` when the
benchmark's price for the date is truthy, and is silently skipped
otherwise. -/
def alt_value_on_date (price_on_date : PriceOracle)
    (histories : String → PriceHistory) (purchases : List Purchase)
    (comp_ticker : String) (dt : PDate) : ℚ :=
  (purchases.map (fun p =>
    if p.purchase_date.key ≤ dt.key then
      match history_comp_shares price_on_date comp_ticker p with
      | some shares =>
        if shares ≠ 0 then
          match histGet (histories comp_ticker) dt with
          | some price => if price ≠ 0 then shares * price else 0
          | none => 0
        else 0
      | none => 0
    else 0)).sum

/-- A benchmark's series in `GET /portfolio/history`: for every date an entry
`some (round(alt_value, 2))` is appended. -/
def alt_series (price_on_date : PriceOracle) (histories : String → PriceHistory)
    (purchases : List Purchase) (comp_ticker : String) (dates : List PDate) :
    List (Option ℚ) :=
  dates.map (fun dt =>
    some (round2 (alt_value_on_date price_on_date histories purchases comp_ticker dt)))

/-- `total_invested = sum(p.amount for p in purchases)`. -/
def total_invested_of (purchases : List Purchase) : ℚ :=
  (purchases.map (fun p => p.amount)).sum

/-- `min(p.purchase_date for p in purchases)`; the empty case is never used
(`calculate_monthly_dca_spy` returns first for an empty purchase list). -/
def first_purchase_date (purchases : List Purchase) : PDate :=
  match purchases with
  | [] => ⟨0, 1, 1⟩
  | p :: ps =>
    ps.foldl (fun acc q =>
      if q.purchase_date.key < acc.key then q.purchase_date else acc)
      p.purchase_date

/-- Linear month index of a date's calendar month. -/
def monthIndex (dt : PDate) : Nat := dt.y * 12 + (dt.m - 1)

/-- The calendar months (year, month) from the start date's month to the end
date's month, inclusive. -/
def monthsBetween (start_date end_date : PDate) : List (Nat × Nat) :=
  if monthIndex end_date < monthIndex start_date then []
  else
    (List.range (monthIndex end_date - monthIndex start_date + 1)).map
      (fun i =>
        let k := monthIndex start_date + i
        (k / 12, k % 12 + 1))

/-- The last trading day of a calendar month: the largest day 1..31 whose
date the trading-day predicate accepts. -/
def lastTradingDayOfMonth (trading : PDate → Bool) (y m : Nat) : Option PDate :=
  (((List.range 31).map (fun i => 31 - i)).find?
    (fun d => trading ⟨y, m, d⟩)).map (fun d => ⟨y, m, d⟩)

/-- Modelled from the spec: `generate_monthly_dca_dates` is imported by
`app/routes/portfolio.py` from `app.services.stock_data` but is absent from
the repository's source; per the specification it yields "one purchase on
the last trading day of each calendar month from the user's first purchase
date to now" — here, for each calendar month between the two dates, the
month's last trading day, kept when it does not lie beyond the end date,
as `(year, month, trading_date)` triples matching the caller's unpacking. -/
def generate_monthly_dca_dates (trading : PDate → Bool)
    (start_date end_date : PDate) : List (Nat × Nat × PDate) :=
  (monthsBetween start_date end_date).filterMap (fun ym =>
    match lastTradingDayOfMonth trading ym.1 ym.2 with
    | some dt => if dt.key ≤ end_date.key then some (ym.1, ym.2, dt) else none
    | none => none)

/-- The dict returned by `calculate_monthly_dca_spy` (the ticker and name
fields are the constants `MONTHLY_DCA_SPY` / `Monthly DCA SPY`). -/
structure DcaAlt where
  total_invested : ℚ
  current_value : ℚ
  gain_loss : ℚ
  return_pct : ℚ
deriving DecidableEq

/-- The share-accumulation loop of `calculate_monthly_dca_spy`
(`app/routes/portfolio.py` lines 49-58): each monthly date with a truthy SPY
price contributes `monthly_investment / price` shares. -/
def dca_total_shares (price_on_date : PriceOracle) (monthly_investment : ℚ)
    (monthly_dates : List (Nat × Nat × PDate)) : ℚ :=
  monthly_dates.foldl (fun acc ymd =>
    match price_on_date "SPY" ymd.2.2 with
    | some price => if price ≠ 0 then acc + monthly_investment / price else acc
    | none => acc) 0

/-- `calculate_monthly_dca_spy` (`app/routes/portfolio.py` lines 20-71),
on the summary path (no pre-fetched price histories, so monthly prices come
from `get_price_on_date`).  Returns `none` — the alternative is omitted —
when there are no purchases, no monthly dates, or no truthy SPY current
price (`if not spy_current_price` also rejects a zero price).  Months whose
SPY price is falsy contribute no shares. -/
def calculate_monthly_dca_spy (trading : PDate → Bool)
    (price_on_date : PriceOracle) (current_prices : CurrentPrices)
    (purchases : List Purchase) (today : PDate) : Option DcaAlt :=
  match purchases with
  | [] => none
  | _ :: _ =>
    let total_invested := total_invested_of purchases
    let monthly_dates :=
      generate_monthly_dca_dates trading (first_purchase_date purchases) today
    if monthly_dates.isEmpty then none
    else
      let monthly_investment := total_invested / (monthly_dates.length : ℚ)
      match current_prices "SPY" with
      | none => none
      | some spy_current =>
        if spy_current = 0 then none
        else
          let total_shares := dca_total_shares price_on_date monthly_investment monthly_dates
          let current_value := total_shares * spy_current
          let gain_loss := current_value - total_invested
          let return_pct :=
            if total_invested > 0 then gain_loss / total_invested * 100 else 0
          some ⟨total_invested, round2 current_value, round2 gain_loss,
                round2 return_pct⟩

/-! ## Concrete fixtures

Ledgers and oracles used to evaluate the operations on concrete inputs; the
first ledger is the worked example of the specification (three TICK lots of
100, 50 and 75 shares at 150, 160 and 155 dollars). -/

/-- The specification's worked example ledger: lots of 100 sh @ 150
(2024-01-15), 50 sh @ 160 (2024-03-20) and 75 sh @ 155 (2024-05-10). -/
def exampleLedger : DB :=
  ⟨[⟨1, 1, "TICK", ⟨2024, 1, 15⟩, 15000, 100, 150⟩,
    ⟨2, 1, "TICK", ⟨2024, 3, 20⟩, 8000, 50, 160⟩,
    ⟨3, 1, "TICK", ⟨2024, 5, 10⟩, 11625, 75, 155⟩], [], [], 1⟩

/-- A ledger with no purchases at all. -/
def emptyLedger : DB := ⟨[], [], [], 1⟩

/-- The older of two lots, stored after the newer one. -/
def lotOld : Purchase := ⟨1, 1, "T", ⟨2024, 1, 10⟩, 1000, 10, 100⟩

/-- The newer of two lots. -/
def lotNew : Purchase := ⟨2, 1, "T", ⟨2024, 2, 20⟩, 550, 5, 110⟩

/-- Two lots of the same (owner, ticker) stored newest-first, so that the
FIFO walk's date sort is exercised. -/
def twoLotLedger : DB := ⟨[lotNew, lotOld], [], [], 1⟩

/-- A ledger whose single lot holds exactly `1e-4` shares — at the epsilon,
so the walk skips it while the availability check counts it. -/
def thinLotLedger : DB := ⟨[⟨1, 1, "T", ⟨2024, 1, 2⟩, tol, tol, 1⟩], [], [], 1⟩

/-- A one-share lot, insufficient for a five-share preview. -/
def oneShareLedger : DB := ⟨[⟨1, 1, "T", ⟨2024, 1, 2⟩, 10, 1, 10⟩], [], [], 1⟩

/-- A sale of user 1: 10 shares of AAPL at 10, proceeds 100, unlinked. -/
def sale5 : Sale := ⟨5, 1, "AAPL", ⟨2024, 1, 2⟩, 10, 10, 100, none, none, none⟩

/-- A purchase of a different user (user 2) and a different ticker. -/
def purchase9 : Purchase := ⟨9, 2, "TSLA", ⟨2024, 2, 2⟩, 50, 1, 50⟩

/-- A ledger holding `sale5` (user 1) and `purchase9` (user 2). -/
def linkLedger : DB := ⟨[purchase9], [sale5], [], 6⟩

/-- `sale5` with the reinvestment linkage to `purchase9` set for amount 60. -/
def sale5Linked : Sale :=
  ⟨5, 1, "AAPL", ⟨2024, 1, 2⟩, 10, 10, 100, some 9, some 60, some 40⟩

/-- `linkLedger` after linking `sale5` to `purchase9` for amount 60. -/
def linkLedgerAfter : DB := ⟨[purchase9], [sale5Linked], [], 6⟩

/-- A META lot: 10000 dollars at a stored price of 500, hence 20 shares. -/
def metaPurchase : Purchase := ⟨1, 1, "META", ⟨2024, 1, 15⟩, 10000, 20, 500⟩

/-- An oracle whose historical quote for META on the purchase date has
drifted to 485 — different from the stored 500. -/
def oracleDrift : PriceOracle := fun _ _ => some 485

/-- A second oracle returning yet another quote everywhere. -/
def oracleDrift2 : PriceOracle := fun _ _ => some 999

/-- Current prices: 600 for every ticker. -/
def currentSix : CurrentPrices := fun _ => some 600

/-- A lot of ticker A for the history counterexample. -/
def purchaseA8 : Purchase := ⟨1, 1, "A", ⟨2024, 1, 2⟩, 100, 10, 10⟩

/-- An oracle that knows the benchmark's price only on the purchase date. -/
def oracleC8 : PriceOracle := fun t dt =>
  if t == "BENCH" && dt == PDate.mk 2024 1 2 then some 50 else none

/-- Price histories: ticker A is priced on both dates, the benchmark only on
the first — its price is missing on 2024-01-03. -/
def histC8 : String → PriceHistory := fun t =>
  if t == "A" then [(⟨2024, 1, 2⟩, 10), (⟨2024, 1, 3⟩, 11)]
  else if t == "BENCH" then [(⟨2024, 1, 2⟩, 50)]
  else []

/-- A trading calendar in which the 28th of every month is the (only and
hence last) trading day. -/
def trading28 : PDate → Bool := fun dt => dt.d == 28

/-- SPY monthly prices: 10 in January, 20 in February, 25 afterwards. -/
def oracle9 : PriceOracle := fun t dt =>
  if t == "SPY" then
    (if dt.m == 1 then some 10 else if dt.m == 2 then some 20 else some 25)
  else none

/-- The prices of `oracle9` as a function of the monthly-date triple. -/
def prices9 : Nat × Nat × PDate → ℚ := fun ymd =>
  if ymd.2.2.m == 1 then 10 else if ymd.2.2.m == 2 then 20 else 25

/-- A current SPY price of 20. -/
def current9 : CurrentPrices := fun t => if t == "SPY" then some 20 else none

/-- One purchase of 300 dollars on 2024-01-15. -/
def purchases9 : List Purchase := [⟨1, 1, "AAPL", ⟨2024, 1, 15⟩, 300, 2, 150⟩]

/-! ## Lemmas about the FIFO walk -/

/-- Sum of the `shares_assigned` fields of a list of assignments. -/
def sumShares (l : List PurchaseSaleAssignment) : ℚ :=
  (l.map (fun a => a.shares_assigned)).sum

theorem fifoAssignLoop_sum (db : DB) (sid : Nat) (pas : ℚ) :
    ∀ (lots : List Purchase) (rem : ℚ),
      sumShares (fifoAssignLoop db sid pas lots rem).1 +
        (fifoAssignLoop db sid pas lots rem).2 = rem
  | [], rem => by simp [fifoAssignLoop, sumShares]
  | p :: ps, rem => by
    simp only [fifoAssignLoop]
    split
    · simp [sumShares]
    · split
      · exact fifoAssignLoop_sum db sid pas ps rem
      · have ih := fifoAssignLoop_sum db sid pas ps
          (rem - min rem (shares_remaining db p))
        simp only [sumShares, List.map_cons, List.sum_cons] at ih ⊢
        linarith

theorem fifoAssignLoop_rem_nonneg (db : DB) (sid : Nat) (pas : ℚ) :
    ∀ (lots : List Purchase) (rem : ℚ), 0 ≤ rem →
      0 ≤ (fifoAssignLoop db sid pas lots rem).2
  | [], rem, h => h
  | p :: ps, rem, h => by
    simp only [fifoAssignLoop]
    split
    · exact h
    · split
      · exact fifoAssignLoop_rem_nonneg db sid pas ps rem h
      · exact fifoAssignLoop_rem_nonneg db sid pas ps _
          (by simp only [sub_nonneg]; exact min_le_left _ _)

theorem fifoAssignLoop_mem_purchase (db : DB) (sid : Nat) (pas : ℚ) :
    ∀ (lots : List Purchase) (rem : ℚ) (a : PurchaseSaleAssignment),
      a ∈ (fifoAssignLoop db sid pas lots rem).1 →
      ∃ q ∈ lots, a.purchase_id = q.id
  | [], rem, a, h => by simp [fifoAssignLoop] at h
  | p :: ps, rem, a, h => by
    simp only [fifoAssignLoop] at h
    split at h
    · simp at h
    · split at h
      · obtain ⟨q, hq, hid⟩ := fifoAssignLoop_mem_purchase db sid pas ps rem a h
        exact ⟨q, List.mem_cons_of_mem _ hq, hid⟩
      · rcases List.mem_cons.1 h with h1 | h1
        · exact ⟨p, List.mem_cons_self _ _, by rw [h1]⟩
        · obtain ⟨q, hq, hid⟩ := fifoAssignLoop_mem_purchase db sid pas ps _ a h1
          exact ⟨q, List.mem_cons_of_mem _ hq, hid⟩

/-- Characterisation of a successful `create_sale_with_fifo` call: the input
validations and the availability check passed, the created assignments are
the FIFO walk's output, and the walk left at most `tol` unassigned. -/
theorem create_sale_ok_unfold {db : DB} {u : Nat} {t : String} {d : PDate}
    {s pas : ℚ} {x : DB × Sale × List PurchaseSaleAssignment}
    (h : create_sale_with_fifo db u t d s pas = .ok x) :
    0 < s ∧ 0 < pas ∧ (purchasesFor db u t).isEmpty = false ∧
    ¬(total_available db u t < s - tol) ∧
    x.2.2 = (fifoAssignLoop db db.next_sale_id pas (purchasesFor db u t) s).1 ∧
    (fifoAssignLoop db db.next_sale_id pas (purchasesFor db u t) s).2 ≤ tol := by
  simp only [create_sale_with_fifo] at h
  split at h
  · exact absurd h (by simp)
  · split at h
    · exact absurd h (by simp)
    · split at h
      · exact absurd h (by simp)
      · split at h
        · exact absurd h (by simp)
        · split at h
          · exact absurd h (by simp)
          · rename_i h1 h2 h3 h4 h5
            cases h
            exact ⟨lt_of_not_le h1, lt_of_not_le h2,
              Bool.not_eq_true _ ▸ h3, h4, rfl, le_of_not_lt h5⟩

theorem tol_pos : 0 < tol := by norm_num [tol]

theorem sortByDate_pair {p1 p2 : Purchase}
    (h : p1.purchase_date.key < p2.purchase_date.key) :
    sortByDate [p2, p1] = [p1, p2] := by
  have hn : ¬(p2.purchase_date.key ≤ p1.purchase_date.key) := not_le.2 h
  simp [sortByDate, insertByDate, hn]

/-- C1: for every successful call to `create_sale_with_fifo`, the sum of
`shares_assigned` across the assignments created for the sale equals the
requested `shares_sold` within the tolerance `1e-4`. -/
theorem fifo_sale_conserves_shares (db : DB) (u : Nat) (t : String) (d : PDate)
    (s pas : ℚ) (h : saleOk (create_sale_with_fifo db u t d s pas) = true) :
    |sumShares (createdAssignments (create_sale_with_fifo db u t d s pas)) - s| ≤ tol := by
  cases hx : create_sale_with_fifo db u t d s pas with
  | error e => rw [hx] at h; simp [saleOk] at h
  | ok x =>
    obtain ⟨hs, -, -, -, hass, hrem⟩ := create_sale_ok_unfold hx
    simp only [createdAssignments]
    rw [hass]
    have hsum := fifoAssignLoop_sum db db.next_sale_id pas (purchasesFor db u t) s
    have hnn := fifoAssignLoop_rem_nonneg db db.next_sale_id pas
      (purchasesFor db u t) s (le_of_lt hs)
    rw [abs_le]
    constructor <;> linarith

/-- C2: for two lots of the same (owner, ticker) stored in the ledger with
`L1.purchase_date` strictly earlier than `L2.purchase_date`, a successful
sale of fewer shares than `L1.shares_remaining` draws only from `L1`, and a
sale exceeding `L1.shares_remaining` (with `L1` above the `1e-4` epsilon,
below which the walk skips a lot) first consumes all of `L1` and only then
draws from `L2` — never the reverse.  The two lots are given to the filter
in reverse order, so the conclusion exercises the ascending
`purchase_date` sort of the walk. -/
theorem fifo_consumes_oldest_lot_first (db : DB) (u : Nat) (t : String)
    (d : PDate) (s pas : ℚ) (p1 p2 : Purchase)
    (hfilter : db.purchases.filter (fun q => q.user_id == u && q.ticker == t) = [p2, p1])
    (hdate : p1.purchase_date.key < p2.purchase_date.key)
    (hok : saleOk (create_sale_with_fifo db u t d s pas) = true) :
    (s < shares_remaining db p1 →
      ∀ a ∈ createdAssignments (create_sale_with_fifo db u t d s pas),
        a.purchase_id = p1.id) ∧
    (tol < shares_remaining db p1 → shares_remaining db p1 < s →
      ∃ a rest,
        createdAssignments (create_sale_with_fifo db u t d s pas) = a :: rest ∧
        a.purchase_id = p1.id ∧ a.shares_assigned = shares_remaining db p1 ∧
        ∀ b ∈ rest, b.purchase_id = p2.id) := by
  have hpf : purchasesFor db u t = [p1, p2] := by
    unfold purchasesFor
    rw [hfilter]
    exact sortByDate_pair hdate
  cases hx : create_sale_with_fifo db u t d s pas with
  | error e => rw [hx] at hok; simp [saleOk] at hok
  | ok x =>
    obtain ⟨-, -, -, -, hass, hrem⟩ := create_sale_ok_unfold hx
    rw [hpf] at hass hrem
    constructor
    · intro hslt a ha
      simp only [createdAssignments] at ha
      rw [hass] at ha
      by_cases hstol : s ≤ tol
      · simp [fifoAssignLoop, hstol] at ha
      · have hr1 : ¬(shares_remaining db p1 ≤ tol) := by
          push_neg at hstol ⊢
          linarith
        have hmin : min s (shares_remaining db p1) = s := min_eq_left hslt.le
        simp only [fifoAssignLoop, if_neg hstol, if_neg hr1, hmin, sub_self,
          if_pos tol_pos.le] at ha
        rcases List.mem_cons.1 ha with h1 | h1
        · rw [h1]
        · simp at h1
    · intro htol hr1s
      have hstol : ¬(s ≤ tol) := by push_neg; linarith
      have hr1 : ¬(shares_remaining db p1 ≤ tol) := not_le.2 htol
      have hmin : min s (shares_remaining db p1) = shares_remaining db p1 :=
        min_eq_right hr1s.le
      simp only [createdAssignments]
      rw [hass]
      simp only [fifoAssignLoop, if_neg hstol, if_neg hr1, hmin]
      refine ⟨_, _, rfl, rfl, rfl, ?_⟩
      intro b hb
      obtain ⟨q, hq, hbq⟩ := fifoAssignLoop_mem_purchase db db.next_sale_id pas
        [p2] (s - shares_remaining db p1) b hb
      simp at hq
      rw [hbq, hq]

/-- C3 (amended): a call to `create_sale_with_fifo` with positive shares and
price, at least one lot row for (owner, ticker), and total availability more
than `1e-4` short of the request fails with `InsufficientSharesError`
carrying the available and the requested quantities; no store results from
the call and no assignments are created, so every lot's `shares_remaining`
is read against the unchanged ledger. -/
theorem insufficient_shares_rejected (db : DB) (u : Nat) (t : String)
    (d : PDate) (s pas : ℚ) (hs : 0 < s) (hp : 0 < pas)
    (hne : (purchasesFor db u t).isEmpty = false)
    (hlt : total_available db u t < s - tol) :
    create_sale_with_fifo db u t d s pas =
      .error (.insufficientShares (total_available db u t) s) ∧
    resultDB (create_sale_with_fifo db u t d s pas) = none ∧
    createdAssignments (create_sale_with_fifo db u t d s pas) = [] := by
  have hlt' : (List.map (shares_remaining db) (purchasesFor db u t)).sum < s - tol := hlt
  have h : create_sale_with_fifo db u t d s pas =
      .error (.insufficientShares (total_available db u t) s) := by
    simp only [create_sale_with_fifo, if_neg (not_le.2 hs), if_neg (not_le.2 hp),
      hne, Bool.false_eq_true, if_false, if_pos hlt']
    rfl
  exact ⟨h, by rw [h]; rfl, by rw [h]; rfl⟩

/-- C4 (amended): when the FIFO walk leaves more than `1e-4` shares of the
request unassigned despite the availability check having passed, the whole
operation is rolled back — no store results and no assignments are created —
but the failure is raised as `InsufficientSharesError`, the same Python
class as the ordinary user-facing insufficiency error, and the `POST /sales`
route returns it as an ordinary HTTP 400 user error. -/
theorem incomplete_assignment_rolls_back (db : DB) (u : Nat) (t : String)
    (d : PDate) (s pas r : ℚ)
    (h : create_sale_with_fifo db u t d s pas = .error (.assignmentIncomplete r)) :
    resultDB (create_sale_with_fifo db u t d s pas) = none ∧
    createdAssignments (create_sale_with_fifo db u t d s pas) = [] ∧
    tol < r ∧
    (SaleError.assignmentIncomplete r).pyClass =
      (SaleError.insufficientShares (total_available db u t) s).pyClass ∧
    create_sale_route_status db u t d s pas = 400 := by
  refine ⟨by rw [h]; rfl, by rw [h]; rfl, ?_, rfl, ?_⟩
  · simp only [create_sale_with_fifo] at h
    split at h
    · exact absurd h (by simp)
    · split at h
      · exact absurd h (by simp)
      · split at h
        · exact absurd h (by simp)
        · split at h
          · exact absurd h (by simp)
          · split at h
            · rename_i hgt
              cases h
              exact hgt
            · exact absurd h (by simp)
  · unfold create_sale_route_status
    rw [h]
    rfl

/-- C6: whenever `link_sale_to_reinvestment` sets the reinvestment linkage,
`reinvested_amount + cash_retained = total_proceeds` and
`0 < reinvested_amount ≤ total_proceeds` hold on the updated sale; a call
with a non-positive amount, an amount exceeding the proceeds, or a
nonexistent sale or purchase fails with a `ValueError` and produces no
linked sale. -/
theorem reinvestment_linkage_conservation (db : DB) (sid pid : Nat) (amt : ℚ) :
    (∀ db' s', link_sale_to_reinvestment db sid pid amt = .ok (db', s') →
      s'.reinvestment_purchase_id = some pid ∧
      s'.reinvested_amount = some amt ∧
      s'.cash_retained = some (s'.total_proceeds - amt) ∧
      0 < amt ∧ amt ≤ s'.total_proceeds ∧
      (s'.reinvested_amount.getD 0) + (s'.cash_retained.getD 0) = s'.total_proceeds) ∧
    (amt ≤ 0 → linkedSale (link_sale_to_reinvestment db sid pid amt) = none) ∧
    (∀ sale, findSale db sid = some sale → sale.total_proceeds < amt →
      linkedSale (link_sale_to_reinvestment db sid pid amt) = none) ∧
    (findSale db sid = none →
      linkedSale (link_sale_to_reinvestment db sid pid amt) = none) ∧
    (findPurchase db pid = none →
      linkedSale (link_sale_to_reinvestment db sid pid amt) = none) := by
  cases hfs : findSale db sid with
  | none =>
    simp only [link_sale_to_reinvestment, linkedSale, hfs]
    exact ⟨fun db' s' h => absurd h (by simp), fun _ => trivial,
      fun _ _ _ => trivial, fun _ => trivial, fun _ => trivial⟩
  | some sale =>
    cases hfp : findPurchase db pid with
    | none =>
      simp only [link_sale_to_reinvestment, linkedSale, hfs, hfp]
      exact ⟨fun db' s' h => absurd h (by simp), fun _ => trivial,
        fun _ _ _ => trivial, fun _ => trivial, fun _ => trivial⟩
    | some pu =>
      by_cases h0 : amt ≤ 0
      · simp only [link_sale_to_reinvestment, linkedSale, hfs, hfp, if_pos h0]
        exact ⟨fun db' s' h => absurd h (by simp), fun _ => trivial,
          fun _ _ _ => trivial, fun _ => trivial, fun _ => trivial⟩
      · by_cases hgt : amt > sale.total_proceeds
        · simp only [link_sale_to_reinvestment, linkedSale, hfs, hfp,
            if_neg h0, if_pos hgt]
          exact ⟨fun db' s' h => absurd h (by simp), fun _ => trivial,
            fun _ _ _ => trivial, fun _ => trivial, fun _ => trivial⟩
        · simp only [link_sale_to_reinvestment, linkedSale, hfs, hfp,
            if_neg h0, if_neg hgt]
          refine ⟨?_, fun ha => absurd ha h0, ?_, ?_, ?_⟩
          · intro db' s' h
            cases h
            refine ⟨rfl, rfl, rfl, lt_of_not_le h0, le_of_not_lt hgt, ?_⟩
            show amt + (sale.total_proceeds - amt) = sale.total_proceeds
            ring
          · intro sale' hsale hlt
            cases hsale
            exact absurd hlt (by push_neg at hgt ⊢; exact hgt)
          · intro hn; cases hn
          · intro hn; cases hn

/-- C10: `link_sale_to_reinvestment` checks only that the sale and the
purchase exist and that `0 < reinvested_amount ≤ sale.total_proceeds`; with
no hypothesis relating the two records' owners or tickers, the link succeeds
and sets the linkage — in particular for a sale and a purchase owned by
different users. -/
theorem link_requires_only_existence_and_amount (db : DB) (sid pid : Nat)
    (amt : ℚ) (sale : Sale) (pu : Purchase)
    (hfs : findSale db sid = some sale) (hfp : findPurchase db pid = some pu)
    (h0 : 0 < amt) (hle : amt ≤ sale.total_proceeds) :
    linkedSale (link_sale_to_reinvestment db sid pid amt) =
      some { sale with
              reinvestment_purchase_id := some pid,
              reinvested_amount := some amt,
              cash_retained := some (sale.total_proceeds - amt) } := by
  simp only [link_sale_to_reinvestment, linkedSale, hfs, hfp,
    if_neg (not_le.2 h0), if_neg (not_lt.2 hle)]

/-- C7 (amended): for every positive `shares_to_sell`,
`preview_fifo_assignment` returns a result — persisting nothing, as it
produces no store — whose `total_available` is the ledger's availability and
whose `is_sufficient` flag holds exactly when some lot row exists and the
availability is within `1e-4` of the request; when insufficient the result
carries `shares_remaining_after = None` (and no field holds the shortfall
`requested - available`); a non-positive `shares_to_sell` raises
`ValueError` instead of returning. -/
theorem preview_reports_without_raising (db : DB) (u : Nat) (t : String)
    (s : ℚ) (hs : 0 < s) :
    ∃ pr, preview_fifo_assignment db u t s = .ok pr ∧
      pr.total_available = total_available db u t ∧
      (pr.is_sufficient = true ↔
        (purchasesFor db u t).isEmpty = false ∧ s - tol ≤ total_available db u t) ∧
      (pr.is_sufficient = false → pr.shares_remaining_after = none) ∧
      (pr.is_sufficient = true →
        pr.shares_remaining_after = some (total_available db u t - s)) := by
  have htot : (List.map (shares_remaining db) (purchasesFor db u t)).sum =
      total_available db u t := rfl
  simp only [preview_fifo_assignment, if_neg (not_le.2 hs)]
  by_cases he : (purchasesFor db u t).isEmpty
  · rw [if_pos he]
    have hnil : purchasesFor db u t = [] := by
      cases hq : purchasesFor db u t with
      | nil => rfl
      | cons a l => rw [hq] at he; simp [List.isEmpty] at he
    refine ⟨_, rfl, ?_, ?_, ?_, ?_⟩
    · simp [total_available, hnil]
    · simp [he]
    · intro _; rfl
    · intro h; simp at h
  · rw [if_neg he]
    have hemp : (purchasesFor db u t).isEmpty = false := by simpa using he
    refine ⟨_, rfl, rfl, ?_, ?_, ?_⟩
    · exact ⟨fun hdec => ⟨hemp, of_decide_eq_true hdec⟩,
        fun hand => decide_eq_true hand.2⟩
    · intro h
      have hb : decide ((List.map (shares_remaining db) (purchasesFor db u t)).sum ≥ s - tol) = false := h
      show (if decide ((List.map (shares_remaining db) (purchasesFor db u t)).sum ≥ s - tol) = true
          then some ((List.map (shares_remaining db) (purchasesFor db u t)).sum - s) else none) = none
      rw [if_neg (ne_true_of_eq_false hb)]
    · intro h
      have hb : decide ((List.map (shares_remaining db) (purchasesFor db u t)).sum ≥ s - tol) = true := h
      show (if decide ((List.map (shares_remaining db) (purchasesFor db u t)).sum ≥ s - tol) = true
          then some ((List.map (shares_remaining db) (purchasesFor db u t)).sum - s) else none) =
        some (total_available db u t - s)
      rw [if_pos hb]
      rfl

theorem round2_zero : round2 0 = 0 := by
  norm_num [round2, pyRound, roundHalfEven]

/-- C5: in every valuation context — the per-purchase comparison, the
portfolio summary and the history pre-computation, all of which price a
benchmark at a lot's purchase date through `comp_price_at_purchase` — a
benchmark equal to the lot's own ticker is priced at the stored
`price_at_purchase` and the oracle is not consulted (two valuations with
arbitrary, different oracles agree); and the comparison's
`difference_vs_actual` for the self-benchmark is `0` whenever the lot
satisfies the data-model invariant `amount = shares_bought ×
price_at_purchase` and a current price exists. -/
theorem self_comparison_identity :
    (∀ (o : PriceOracle) (p : Purchase),
      comp_price_at_purchase o p.ticker p = some p.price_at_purchase) ∧
    (∀ (o o' : PriceOracle) (cc : CurrentPrices) (p : Purchase),
      summary_alt_contribution o cc p.ticker p =
        summary_alt_contribution o' cc p.ticker p) ∧
    (∀ (o o' : PriceOracle) (p : Purchase),
      history_comp_shares o p.ticker p = history_comp_shares o' p.ticker p) ∧
    (∀ (o : PriceOracle) (cur : CurrentPrices) (p : Purchase) (c : ℚ),
      cur p.ticker = some c →
      p.amount = p.shares_bought * p.price_at_purchase →
      p.price_at_purchase ≠ 0 →
      ∃ alt, purchase_comparison_alternative o cur p p.ticker = some alt ∧
        alt.difference_vs_actual = 0 ∧
        alt.price_at_purchase = round2 p.price_at_purchase ∧
        alt.shares_would_have = pyRound 4 p.shares_bought) := by
  have hself : ∀ (o : PriceOracle) (p : Purchase),
      comp_price_at_purchase o p.ticker p = some p.price_at_purchase := by
    intro o p
    simp [comp_price_at_purchase]
  refine ⟨hself, ?_, ?_, ?_⟩
  · intro o o' cc p
    simp only [summary_alt_contribution, hself]
  · intro o o' p
    simp only [history_comp_shares, hself]
  · intro o cur p c hcur hinv hpp
    have hdiv : p.amount / p.price_at_purchase = p.shares_bought := by
      rw [hinv]
      exact mul_div_cancel_right₀ _ hpp
    simp only [purchase_comparison_alternative, hcur, hself, hdiv]
    refine ⟨_, rfl, ?_, rfl, rfl⟩
    show round2 (p.shares_bought * c - p.shares_bought * c) = 0
    rw [sub_self, round2_zero]

/-- C8 (amended): every entry of the actual series and of each benchmark's
series in `GET /portfolio/history` is a number, never a null — a date whose
price is missing for a contributing ticker has that holding silently
omitted from the date's sum rather than producing a gap. -/
theorem history_series_hold_numbers (db : DB) (o : PriceOracle)
    (hist : String → PriceHistory) (purchases : List Purchase) (ct : String)
    (dates : List PDate) :
    (actual_series db hist purchases dates).all (fun v => v.isSome) = true ∧
    (alt_series o hist purchases ct dates).all (fun v => v.isSome) = true := by
  constructor
  · simp [actual_series, List.all_eq_true]
  · simp [alt_series, List.all_eq_true]

theorem dca_total_shares_aux (o : PriceOracle) (inv : ℚ)
    (f : Nat × Nat × PDate → ℚ) :
    ∀ (dates : List (Nat × Nat × PDate)) (acc : ℚ),
      (∀ ymd ∈ dates, o "SPY" ymd.2.2 = some (f ymd) ∧ f ymd ≠ 0) →
      dates.foldl (fun acc ymd =>
          match o "SPY" ymd.2.2 with
          | some price => if price ≠ 0 then acc + inv / price else acc
          | none => acc) acc
        = acc + (dates.map (fun ymd => inv / f ymd)).sum
  | [], acc, _ => by simp
  | d :: ds, acc, h => by
    have hd := h d (List.mem_cons_self _ _)
    simp only [List.foldl_cons, List.map_cons, List.sum_cons]
    rw [hd.1]
    simp only [if_pos hd.2]
    rw [dca_total_shares_aux o inv f ds _ (fun y hy => h y (List.mem_cons_of_mem _ hy))]
    ring

theorem dca_total_shares_eq_sum (o : PriceOracle) (inv : ℚ)
    (f : Nat × Nat × PDate → ℚ) (dates : List (Nat × Nat × PDate))
    (h : ∀ ymd ∈ dates, o "SPY" ymd.2.2 = some (f ymd) ∧ f ymd ≠ 0) :
    dca_total_shares o inv dates = (dates.map (fun ymd => inv / f ymd)).sum := by
  unfold dca_total_shares
  rw [dca_total_shares_aux o inv f dates 0 h, zero_add]

/-- C9: the Monthly DCA SPY alternative splits `total_invested` evenly — one
purchase of `total_invested / n` on each of the `n` generated monthly dates,
each the last trading day of its calendar month, no later than today — and
values the accumulated shares at the SPY current price; when no monthly
date exists (zero elapsed months) the alternative is omitted (`none`)
instead of dividing by zero.  `generate_monthly_dca_dates` is absent from
the repository's source and is modelled from the spec. -/
theorem monthly_dca_splits_evenly (trading : PDate → Bool) (o : PriceOracle)
    (cc : CurrentPrices) (purchases : List Purchase) (today : PDate) :
    (generate_monthly_dca_dates trading (first_purchase_date purchases) today = [] →
      calculate_monthly_dca_spy trading o cc purchases today = none) ∧
    (∀ ymd ∈ generate_monthly_dca_dates trading (first_purchase_date purchases) today,
      lastTradingDayOfMonth trading ymd.1 ymd.2.1 = some ymd.2.2 ∧
      ymd.2.2.key ≤ today.key) ∧
    (∀ (c : ℚ) (f : Nat × Nat × PDate → ℚ),
      purchases ≠ [] →
      generate_monthly_dca_dates trading (first_purchase_date purchases) today ≠ [] →
      cc "SPY" = some c → c ≠ 0 →
      (∀ ymd ∈ generate_monthly_dca_dates trading (first_purchase_date purchases) today,
        o "SPY" ymd.2.2 = some (f ymd) ∧ f ymd ≠ 0) →
      ∃ alt, calculate_monthly_dca_spy trading o cc purchases today = some alt ∧
        alt.total_invested = total_invested_of purchases ∧
        alt.current_value = round2
          ((((generate_monthly_dca_dates trading (first_purchase_date purchases) today).map
            (fun ymd => (total_invested_of purchases /
              ((generate_monthly_dca_dates trading (first_purchase_date purchases) today).length : ℚ))
              / f ymd)).sum) * c)) := by
  refine ⟨?_, ?_, ?_⟩
  · intro hgen
    cases hps : purchases with
    | nil => rfl
    | cons a l =>
      rw [hps] at hgen
      simp [calculate_monthly_dca_spy, hgen]
  · intro ymd hymd
    simp only [generate_monthly_dca_dates, List.mem_filterMap] at hymd
    obtain ⟨ym, -, hmatch⟩ := hymd
    cases hlt : lastTradingDayOfMonth trading ym.1 ym.2 with
    | none => rw [hlt] at hmatch; cases hmatch
    | some dt =>
      rw [hlt] at hmatch
      dsimp only at hmatch
      by_cases hk : dt.key ≤ today.key
      · rw [if_pos hk] at hmatch
        cases hmatch
        exact ⟨hlt, hk⟩
      · rw [if_neg hk] at hmatch
        cases hmatch
  · intro c f hps hgen hcc hc hf
    cases hp : purchases with
    | nil => exact absurd hp hps
    | cons a l =>
      subst hp
      have hge : (generate_monthly_dca_dates trading (first_purchase_date (a :: l)) today).isEmpty = false := by
        cases hg : generate_monthly_dca_dates trading (first_purchase_date (a :: l)) today with
        | nil => exact absurd hg hgen
        | cons y ys => rfl
      simp only [calculate_monthly_dca_spy, hge, Bool.false_eq_true, if_false, hcc,
        if_neg hc]
      exact ⟨_, rfl, rfl, by rw [dca_total_shares_eq_sum o _ f _ hf]⟩

/-! ## Witnesses and counterexamples

The rational operations of Batteries are `@[irreducible]`; they are made
semireducible locally so that the operations evaluate on the concrete
fixtures. -/

section ConcreteEvaluation

attribute [local semireducible] Rat.add Rat.sub Rat.mul Rat.inv Rat.ofScientific

/-- Witness for C1 on the specification's worked example: selling 120 TICK
shares at 170 succeeds and the created assignments sum to 120 within
tolerance. -/
theorem fifo_sale_conserves_shares_witness :
    |sumShares (createdAssignments
      (create_sale_with_fifo exampleLedger 1 "TICK" ⟨2024, 6, 1⟩ 120 170)) - 120| ≤ tol :=
  fifo_sale_conserves_shares exampleLedger 1 "TICK" ⟨2024, 6, 1⟩ 120 170 (by decide)

/-- Witness for C2: selling 12 shares against the two-lot ledger (10-share
older lot, 5-share newer lot, stored newest-first) first consumes all 10
shares of the older lot and draws the rest from the newer lot only. -/
theorem fifo_consumes_oldest_lot_first_witness :
    ∃ a rest,
      createdAssignments (create_sale_with_fifo twoLotLedger 1 "T" ⟨2024, 3, 1⟩ 12 120) =
        a :: rest ∧
      a.purchase_id = 1 ∧ a.shares_assigned = 10 ∧ ∀ b ∈ rest, b.purchase_id = 2 := by
  obtain ⟨a, rest, h1, h2, h3, h4⟩ :=
    (fifo_consumes_oldest_lot_first twoLotLedger 1 "T" ⟨2024, 3, 1⟩ 12 120 lotOld lotNew
      (by decide) (by decide) (by decide)).2 (by decide) (by decide)
  exact ⟨a, rest, h1, h2, by rw [h3]; decide, h4⟩

/-- Witness for C3 on the specification's second example: selling 1000 TICK
shares with only 225 available fails with `InsufficientShares` carrying
available and requested, creating nothing. -/
theorem insufficient_shares_rejected_witness :
    create_sale_with_fifo exampleLedger 1 "TICK" ⟨2024, 6, 1⟩ 1000 10 =
      .error (.insufficientShares (total_available exampleLedger 1 "TICK") 1000) ∧
    resultDB (create_sale_with_fifo exampleLedger 1 "TICK" ⟨2024, 6, 1⟩ 1000 10) = none ∧
    createdAssignments (create_sale_with_fifo exampleLedger 1 "TICK" ⟨2024, 6, 1⟩ 1000 10) = [] :=
  insufficient_shares_rejected exampleLedger 1 "TICK" ⟨2024, 6, 1⟩ 1000 10
    (by decide) (by decide) (by decide) (by decide)

/-- Counterexample for C3 as stated: for an owner with no lots for the
ticker, the availability shortfall condition holds, yet the raised
`InsufficientSharesError` names only the ticker and carries neither the
available nor the requested quantity. -/
theorem insufficient_shares_counterexample :
    total_available emptyLedger 1 "TICK" < 1 - tol ∧
    create_sale_with_fifo emptyLedger 1 "TICK" ⟨2024, 6, 1⟩ 1 1 =
      .error (.noPurchasesFound "TICK") ∧
    (SaleError.noPurchasesFound "TICK").carriesQuantities = false := by
  decide

/-- Witness for C4: the epsilon-lot ledger drives the walk past every lot
with `1.5e-4` shares still unassigned; the call rolls back and surfaces as
an ordinary 400. -/
theorem incomplete_assignment_rolls_back_witness :
    resultDB (create_sale_with_fifo thinLotLedger 1 "T" ⟨2024, 1, 3⟩ (3 / 20000) 1) = none ∧
    createdAssignments (create_sale_with_fifo thinLotLedger 1 "T" ⟨2024, 1, 3⟩ (3 / 20000) 1) = [] ∧
    tol < 3 / 20000 ∧
    (SaleError.assignmentIncomplete (3 / 20000)).pyClass =
      (SaleError.insufficientShares (total_available thinLotLedger 1 "T") (3 / 20000)).pyClass ∧
    create_sale_route_status thinLotLedger 1 "T" ⟨2024, 1, 3⟩ (3 / 20000) 1 = 400 :=
  incomplete_assignment_rolls_back thinLotLedger 1 "T" ⟨2024, 1, 3⟩ (3 / 20000) 1
    (3 / 20000) (by decide)

/-- Counterexample for C4 as stated: on the epsilon-lot ledger the
incomplete-assignment guard fires, but the error raised is of the same
Python class as the ordinary user-facing `InsufficientShares` error and the
sales route answers the same ordinary HTTP 400 — not a distinct
internal-consistency error. -/
theorem incomplete_assignment_counterexample :
    create_sale_with_fifo thinLotLedger 1 "T" ⟨2024, 1, 3⟩ (3 / 20000) 1 =
      .error (.assignmentIncomplete (3 / 20000)) ∧
    (SaleError.assignmentIncomplete (3 / 20000)).pyClass =
      (SaleError.insufficientShares (1 / 10000) (3 / 20000)).pyClass ∧
    create_sale_route_status thinLotLedger 1 "T" ⟨2024, 1, 3⟩ (3 / 20000) 1 = 400 := by
  decide

/-- Witness for C5: the META lot compared against META itself, while the
oracle's quote for that date has drifted to 485: the comparison uses the
stored 500, buys back exactly 20 shares, and shows a difference of zero;
the summary contribution is the same under a second, disagreeing oracle. -/
theorem self_comparison_identity_witness :
    (∃ alt, purchase_comparison_alternative oracleDrift currentSix metaPurchase "META" = some alt ∧
      alt.difference_vs_actual = 0 ∧ alt.price_at_purchase = 500 ∧
      alt.shares_would_have = 20) ∧
    summary_alt_contribution oracleDrift currentSix "META" metaPurchase =
      summary_alt_contribution oracleDrift2 currentSix "META" metaPurchase := by
  constructor
  · obtain ⟨alt, h1, h2, h3, h4⟩ :=
      self_comparison_identity.2.2.2 oracleDrift currentSix metaPurchase 600
        rfl (by decide) (by decide)
    exact ⟨alt, h1, h2, by rw [h3]; decide, by rw [h4]; decide⟩
  · exact self_comparison_identity.2.1 oracleDrift oracleDrift2 currentSix metaPurchase

/-- Witness for C6: linking the user-1 sale (proceeds 100) to the user-2
purchase for amount 60 sets `reinvested_amount = 60` and
`cash_retained = 40`, conserving the proceeds; amount 200 (above the
proceeds) and amount 0 both fail and set no linkage. -/
theorem reinvestment_linkage_conservation_witness :
    ∃ s', linkedSale (link_sale_to_reinvestment linkLedger 5 9 60) = some s' ∧
      s'.reinvested_amount = some 60 ∧ s'.cash_retained = some 40 ∧
      s'.reinvested_amount.getD 0 + s'.cash_retained.getD 0 = s'.total_proceeds ∧
      linkedSale (link_sale_to_reinvestment linkLedger 5 9 200) = none ∧
      linkedSale (link_sale_to_reinvestment linkLedger 5 9 0) = none := by
  have h : link_sale_to_reinvestment linkLedger 5 9 60 = .ok (linkLedgerAfter, sale5Linked) := by
    decide
  obtain ⟨-, h2, h3, -, -, h6⟩ :=
    (reinvestment_linkage_conservation linkLedger 5 9 60).1 linkLedgerAfter sale5Linked h
  refine ⟨sale5Linked, by rw [h]; rfl, h2, ?_, h6, ?_, ?_⟩
  · rw [h3]; decide
  · exact (reinvestment_linkage_conservation linkLedger 5 9 200).2.2.1 sale5
      (by decide) (by decide)
  · exact (reinvestment_linkage_conservation linkLedger 5 9 0).2.1 (by decide)

/-- Witness for C7: previewing 5 shares against a 1-share ledger returns a
result (no exception) that reports the availability of 1 share and
`is_sufficient = false`. -/
theorem preview_reports_without_raising_witness :
    ∃ pr, preview_fifo_assignment oneShareLedger 1 "T" 5 = .ok pr ∧
      pr.total_available = total_available oneShareLedger 1 "T" ∧
      (pr.is_sufficient = true ↔
        (purchasesFor oneShareLedger 1 "T").isEmpty = false ∧
          5 - tol ≤ total_available oneShareLedger 1 "T") ∧
      (pr.is_sufficient = false → pr.shares_remaining_after = none) ∧
      (pr.is_sufficient = true →
        pr.shares_remaining_after = some (total_available oneShareLedger 1 "T" - 5)) :=
  preview_reports_without_raising oneShareLedger 1 "T" 5 (by decide)

/-- Counterexample for C7 as stated: `preview_fifo_assignment` raises
`ValueError` for `shares_to_sell = 0` rather than returning, and the result
for an insufficient request reports `is_sufficient = false` with
`shares_remaining_after = None` — no field carries the shortfall `5 - 1`. -/
theorem preview_counterexample :
    preview_fifo_assignment oneShareLedger 1 "T" 0 = .error .sharesNotPositive ∧
    preview_fifo_assignment oneShareLedger 1 "T" 5 =
      .ok ⟨[⟨1, ⟨2024, 1, 2⟩, 10, 1, 1, 10⟩], 10, 1, false, none, none⟩ := by
  decide

/-- Counterexample for C8 as stated: the benchmark's price is missing on
2024-01-03, yet the benchmark's series holds the number 0 at that date — a
partial sum omitting the unpriced holding — instead of a null gap. -/
theorem history_gap_counterexample :
    histGet (histC8 "BENCH") ⟨2024, 1, 3⟩ = none ∧
    alt_series oracleC8 histC8 [purchaseA8] "BENCH" [⟨2024, 1, 2⟩, ⟨2024, 1, 3⟩] =
      [some 100, some 0] := by
  decide

/-- Witness for C9: 300 dollars invested from January 2024, DCA'd over the
three month-end trading days at SPY prices 10, 20 and 25, buys 10 + 5 + 4
shares, valued at 380 at the current price 20; with an empty trading
calendar (no monthly dates) the alternative is omitted. -/
theorem monthly_dca_splits_evenly_witness :
    (∃ alt, calculate_monthly_dca_spy trading28 oracle9 current9 purchases9 ⟨2024, 3, 28⟩ =
        some alt ∧ alt.total_invested = 300 ∧ alt.current_value = 380) ∧
    calculate_monthly_dca_spy (fun _ => false) oracle9 current9 purchases9 ⟨2024, 3, 28⟩ =
      none := by
  constructor
  · obtain ⟨alt, h1, h2, h3⟩ :=
      (monthly_dca_splits_evenly trading28 oracle9 current9 purchases9 ⟨2024, 3, 28⟩).2.2
        20 prices9 (by decide) (by decide) (by decide) (by decide) (by decide)
    exact ⟨alt, h1, by rw [h2]; decide, by rw [h3]; decide⟩
  · exact (monthly_dca_splits_evenly (fun _ => false) oracle9 current9 purchases9
      ⟨2024, 3, 28⟩).1 (by decide)

/-- Witness for C10: the sale belongs to user 1 and the purchase to user 2,
under different tickers; the link nevertheless succeeds at the amount bound
(100, the whole proceeds) and sets the linkage with zero cash retained. -/
theorem link_requires_only_existence_and_amount_witness :
    linkedSale (link_sale_to_reinvestment linkLedger 5 9 100) =
      some ⟨5, 1, "AAPL", ⟨2024, 1, 2⟩, 10, 10, 100, some 9, some 100, some 0⟩ := by
  have h := link_requires_only_existence_and_amount linkLedger 5 9 100 sale5 purchase9
    (by decide) (by decide) (by decide) (by decide)
  rw [h]
  decide

end ConcreteEvaluation

end HonestPortfolio
